import Mathlib

/-!
Verification of the GOES-16 classroom notebook's conversion core.

The notebook converts top-of-atmosphere radiance to brightness temperature
via the inverse Planck function, to emitted energy via the Stefan-Boltzmann
law, and to reflectance via a square-root scaling; it also smooths GFS
fields with a Gaussian filter and resamples them onto isentropic surfaces.
This file embeds those computations and proves or refutes the specified
properties about them.
-/

namespace Goes16

/-! ## Real-valued radiance conversions

Embeddings of the notebook's arithmetic over the exact reals.  The source
computes, for the infrared channel,
`T = fk2 / (np.log((fk1 / ir_rad) + 1))` and `ir_BT = bc2*T + bc1`,
and for the water-vapor channel
`wv_BT = (fk2 / (np.log((fk1/wv_rad)+1)) - bc1)/bc2`. -/

/-- Inverse Planck function: `T = fk2 / (np.log((fk1 / ir_rad) + 1))`. -/
noncomputable def planckT (fk1 fk2 L : ℝ) : ℝ :=
  fk2 / Real.log (fk1 / L + 1)

/-- Infrared brightness temperature: `ir_BT = bc2*T + bc1`. -/
noncomputable def ir_BT (fk1 fk2 bc1 bc2 L : ℝ) : ℝ :=
  bc2 * planckT fk1 fk2 L + bc1

/-- Water-vapor-style brightness temperature:
`wv_BT = (fk2 / (np.log((fk1/wv_rad)+1)) - bc1)/bc2`. -/
noncomputable def wv_BT (fk1 fk2 bc1 bc2 L : ℝ) : ℝ :=
  (fk2 / Real.log (fk1 / L + 1) - bc1) / bc2

/-- Elementwise intermediate temperature field over a 2-D radiance field. -/
noncomputable def planckT_field (fk1 fk2 : ℝ) (rad : List (List ℝ)) :
    List (List ℝ) :=
  rad.map (List.map (planckT fk1 fk2))

/-- Elementwise infrared brightness-temperature field:
first the temperature field, then the scale-and-offset correction. -/
noncomputable def ir_BT_field (fk1 fk2 bc1 bc2 : ℝ) (rad : List (List ℝ)) :
    List (List ℝ) :=
  (planckT_field fk1 fk2 rad).map (List.map (fun t => bc2 * t + bc1))

/-- Inverse of the conversion, following the spec's round-trip recipe:
`T = (BT - bc1)/bc2` then `L = fk1/(exp(fk2/T) - 1)`. -/
noncomputable def bt_to_radiance (fk1 fk2 bc1 bc2 BT : ℝ) : ℝ :=
  fk1 / (Real.exp (fk2 / ((BT - bc1) / bc2)) - 1)

/-- C1: for every radiance field and band constants, the infrared conversion
computes, elementwise, `T = fk2 / ln(fk1/radiance + 1)` then
`BT = bc2*T + bc1`, and the brightness-temperature field has the same shape
as the input radiance field. -/
theorem ir_BT_field_elementwise_and_shape (fk1 fk2 bc1 bc2 : ℝ)
    (rad : List (List ℝ)) :
    ir_BT_field fk1 fk2 bc1 bc2 rad =
      rad.map (List.map
        (fun L => bc2 * (fk2 / Real.log (fk1 / L + 1)) + bc1)) ∧
    (ir_BT_field fk1 fk2 bc1 bc2 rad).length = rad.length ∧
    (ir_BT_field fk1 fk2 bc1 bc2 rad).map List.length =
      rad.map List.length := by
  refine ⟨?_, ?_, ?_⟩
  · simp [ir_BT_field, planckT_field, List.map_map, Function.comp,
      ir_BT, planckT]
  · simp [ir_BT_field, planckT_field]
  · simp [ir_BT_field, planckT_field, List.map_map, Function.comp]

/-- C4: the forward infrared conversion followed by the spec's inverse
recipe reproduces the original radiance exactly over the reals. -/
theorem bt_roundtrip (fk1 fk2 bc1 bc2 L : ℝ)
    (hL : 0 < L) (hfk1 : 0 < fk1) (hfk2 : fk2 ≠ 0) (hbc2 : bc2 ≠ 0) :
    bt_to_radiance fk1 fk2 bc1 bc2 (ir_BT fk1 fk2 bc1 bc2 L) = L := by
  have hx : (1 : ℝ) < fk1 / L + 1 := by
    have : 0 < fk1 / L := div_pos hfk1 hL
    linarith
  have hxpos : (0 : ℝ) < fk1 / L + 1 := by linarith
  have hlog : 0 < Real.log (fk1 / L + 1) := Real.log_pos hx
  have hlogne : Real.log (fk1 / L + 1) ≠ 0 := ne_of_gt hlog
  unfold bt_to_radiance ir_BT planckT
  have hT : (bc2 * (fk2 / Real.log (fk1 / L + 1)) + bc1 - bc1) / bc2 =
      fk2 / Real.log (fk1 / L + 1) := by
    rw [add_sub_cancel_right, mul_div_cancel_left₀ _ hbc2]
  rw [hT]
  have hdiv : fk2 / (fk2 / Real.log (fk1 / L + 1)) =
      Real.log (fk1 / L + 1) := by
    rw [div_div_eq_mul_div, mul_comm, mul_div_assoc, div_self hfk2, mul_one]
  rw [hdiv, Real.exp_log hxpos]
  have : fk1 / L + 1 - 1 = fk1 / L := by ring
  rw [this, div_div_eq_mul_div, mul_comm, mul_div_assoc,
    div_self (ne_of_gt hfk1), mul_one]

/-- Witness for the round-trip theorem at concrete inputs. -/
theorem bt_roundtrip_witness :
    bt_to_radiance 1 1 0 1 (ir_BT 1 1 0 1 1) = 1 :=
  bt_roundtrip 1 1 0 1 1 (by norm_num) (by norm_num) (by norm_num)
    (by norm_num)

/-- C5: for `0 < L1 < L2` and valid band constants, the infrared
brightness temperature is strictly increasing in radiance. -/
theorem ir_BT_strictMono (fk1 fk2 bc1 bc2 L1 L2 : ℝ)
    (hfk1 : 0 < fk1) (hfk2 : 0 < fk2) (hbc2 : 0 < bc2)
    (hL1 : 0 < L1) (hL12 : L1 < L2) :
    ir_BT fk1 fk2 bc1 bc2 L1 < ir_BT fk1 fk2 bc1 bc2 L2 := by
  have hL2 : 0 < L2 := lt_trans hL1 hL12
  have hdivlt : fk1 / L2 < fk1 / L1 := by
    exact div_lt_div_of_pos_left hfk1 hL1 hL12
  have h2pos : 0 < fk1 / L2 := div_pos hfk1 hL2
  have hx2 : (1 : ℝ) < fk1 / L2 + 1 := by linarith
  have hloglt : Real.log (fk1 / L2 + 1) < Real.log (fk1 / L1 + 1) :=
    Real.log_lt_log (by linarith) (by linarith)
  have hlog2pos : 0 < Real.log (fk1 / L2 + 1) := Real.log_pos hx2
  have hTlt : planckT fk1 fk2 L1 < planckT fk1 fk2 L2 := by
    unfold planckT
    exact div_lt_div_of_pos_left hfk2 hlog2pos hloglt
  unfold ir_BT
  have := mul_lt_mul_of_pos_left hTlt hbc2
  linarith

/-- Witness for strict monotonicity at concrete inputs. -/
theorem ir_BT_strictMono_witness :
    ir_BT 1 1 0 1 1 < ir_BT 1 1 0 1 2 :=
  ir_BT_strictMono 1 1 0 1 1 2 (by norm_num) (by norm_num) (by norm_num)
    (by norm_num) (by norm_num)

/-- C7 counterexample: at `fk1 = 1, fk2 = 1, bc1 = 1, bc2 = 2` and the
positive radiance `L = 1/(e-1)`, the water-vapor-style form and the
infrared form give different brightness temperatures (0 versus 3). -/
theorem wv_BT_ne_ir_BT_counterexample :
    0 < 1 / (Real.exp 1 - 1) ∧
    wv_BT 1 1 1 2 (1 / (Real.exp 1 - 1)) ≠
      ir_BT 1 1 1 2 (1 / (Real.exp 1 - 1)) := by
  have he : (1 : ℝ) < Real.exp 1 := by
    have := Real.exp_one_gt_d9
    linarith
  have hepos : 0 < Real.exp 1 - 1 := by linarith
  constructor
  · positivity
  · have harg : (1 : ℝ) / (1 / (Real.exp 1 - 1)) + 1 = Real.exp 1 := by
      rw [one_div_one_div]
      ring
    have hlog : Real.log (1 / (1 / (Real.exp 1 - 1)) + 1) = 1 := by
      rw [harg, Real.log_exp]
    unfold wv_BT ir_BT planckT
    rw [hlog]
    norm_num

/-- C7 amended: the two parameterizations agree (both reduce to the raw
inverse-Planck temperature) when the bandpass correction is trivial,
`bc1 = 0` and `bc2 = 1`. -/
theorem wv_BT_eq_ir_BT_trivial_correction (fk1 fk2 L : ℝ) :
    wv_BT fk1 fk2 0 1 L = ir_BT fk1 fk2 0 1 L := by
  unfold wv_BT ir_BT planckT
  ring

/-! ## Numpy arithmetic with special values

The notebook suppresses warnings and lets numpy's IEEE-754 special values
flow through the formulas.  We model a numpy double as either a finite real
number, a signed infinity, or NaN (zero stands for numpy's +0.0), and give
the numpy semantics of the operations the conversions use. -/

/-- Value of a numpy floating-point cell: finite, infinite or NaN. -/
inductive FP where
  | fin : ℝ → FP
  | pinf : FP
  | ninf : FP
  | nan : FP

open Classical in
/-- Numpy addition with special values. -/
noncomputable def npAdd : FP → FP → FP
  | FP.fin a, FP.fin b => FP.fin (a + b)
  | FP.fin _, FP.pinf => FP.pinf
  | FP.fin _, FP.ninf => FP.ninf
  | FP.pinf, FP.fin _ => FP.pinf
  | FP.ninf, FP.fin _ => FP.ninf
  | FP.pinf, FP.pinf => FP.pinf
  | FP.ninf, FP.ninf => FP.ninf
  | FP.pinf, FP.ninf => FP.nan
  | FP.ninf, FP.pinf => FP.nan
  | _, _ => FP.nan

open Classical in
/-- Numpy multiplication with special values. -/
noncomputable def npMul : FP → FP → FP
  | FP.fin a, FP.fin b => FP.fin (a * b)
  | FP.fin a, FP.pinf =>
      if 0 < a then FP.pinf else if a < 0 then FP.ninf else FP.nan
  | FP.fin a, FP.ninf =>
      if 0 < a then FP.ninf else if a < 0 then FP.pinf else FP.nan
  | FP.pinf, FP.fin b =>
      if 0 < b then FP.pinf else if b < 0 then FP.ninf else FP.nan
  | FP.ninf, FP.fin b =>
      if 0 < b then FP.ninf else if b < 0 then FP.pinf else FP.nan
  | FP.pinf, FP.pinf => FP.pinf
  | FP.pinf, FP.ninf => FP.ninf
  | FP.ninf, FP.pinf => FP.ninf
  | FP.ninf, FP.ninf => FP.pinf
  | _, _ => FP.nan

open Classical in
/-- Numpy division with special values; a zero denominator is numpy's +0.0,
so a positive numerator gives +inf, a negative one -inf, and 0/0 is NaN. -/
noncomputable def npDiv : FP → FP → FP
  | FP.fin a, FP.fin b =>
      if b = 0 then
        if 0 < a then FP.pinf else if a < 0 then FP.ninf else FP.nan
      else FP.fin (a / b)
  | FP.fin _, FP.pinf => FP.fin 0
  | FP.fin _, FP.ninf => FP.fin 0
  | FP.pinf, FP.fin b => if 0 ≤ b then FP.pinf else FP.ninf
  | FP.ninf, FP.fin b => if 0 ≤ b then FP.ninf else FP.pinf
  | _, _ => FP.nan

open Classical in
/-- Numpy natural logarithm: NaN on negative input, -inf at zero. -/
noncomputable def npLog : FP → FP
  | FP.fin x =>
      if 0 < x then FP.fin (Real.log x)
      else if x = 0 then FP.ninf else FP.nan
  | FP.pinf => FP.pinf
  | _ => FP.nan

open Classical in
/-- Numpy square root: NaN on negative input. -/
noncomputable def npSqrt : FP → FP
  | FP.fin x => if 0 ≤ x then FP.fin (Real.sqrt x) else FP.nan
  | FP.pinf => FP.pinf
  | _ => FP.nan

/-- Numpy fourth power, `x**4`. -/
noncomputable def npPow4 : FP → FP
  | FP.fin x => FP.fin (x ^ 4)
  | FP.pinf => FP.pinf
  | FP.ninf => FP.pinf
  | FP.nan => FP.nan

/-- Equation for addition of two finite cells. -/
theorem npAdd_fin_fin (a b : ℝ) : npAdd (FP.fin a) (FP.fin b) = FP.fin (a + b) := rfl

/-- Equation for adding a finite cell to +inf. -/
theorem npAdd_pinf_fin (b : ℝ) : npAdd FP.pinf (FP.fin b) = FP.pinf := rfl

/-- Equation for adding a finite cell to NaN. -/
theorem npAdd_nan_fin (b : ℝ) : npAdd FP.nan (FP.fin b) = FP.nan := rfl

/-- Equation for multiplication of two finite cells. -/
theorem npMul_fin_fin (a b : ℝ) : npMul (FP.fin a) (FP.fin b) = FP.fin (a * b) := rfl

/-- Equation for multiplying a finite cell by NaN. -/
theorem npMul_fin_nan (a : ℝ) : npMul (FP.fin a) FP.nan = FP.nan := rfl

/-- Equation for division of two finite cells. -/
theorem npDiv_fin_fin (a b : ℝ) :
    npDiv (FP.fin a) (FP.fin b) =
      if b = 0 then
        if 0 < a then FP.pinf else if a < 0 then FP.ninf else FP.nan
      else FP.fin (a / b) := rfl

/-- Equation for dividing a finite cell by +inf. -/
theorem npDiv_fin_pinf (a : ℝ) : npDiv (FP.fin a) FP.pinf = FP.fin 0 := rfl

/-- Equation for dividing a finite cell by NaN. -/
theorem npDiv_fin_nan (a : ℝ) : npDiv (FP.fin a) FP.nan = FP.nan := rfl

/-- Equation for the logarithm of a finite cell. -/
theorem npLog_fin (x : ℝ) :
    npLog (FP.fin x) =
      if 0 < x then FP.fin (Real.log x)
      else if x = 0 then FP.ninf else FP.nan := rfl

/-- Equation for the logarithm of +inf. -/
theorem npLog_pinf : npLog FP.pinf = FP.pinf := rfl

/-- Equation for the square root of a finite cell. -/
theorem npSqrt_fin (x : ℝ) :
    npSqrt (FP.fin x) =
      if 0 ≤ x then FP.fin (Real.sqrt x) else FP.nan := rfl

/-- Infrared conversion as numpy executes it on a cell:
`bc2 * (fk2 / np.log(fk1 / rad + 1)) + bc1` with special values. -/
noncomputable def ir_BT_fp (fk1 fk2 bc1 bc2 : ℝ) (L : FP) : FP :=
  npAdd
    (npMul (FP.fin bc2)
      (npDiv (FP.fin fk2) (npLog (npAdd (npDiv (FP.fin fk1) L) (FP.fin 1)))))
    (FP.fin bc1)

/-- Elementwise infrared conversion over a field of numpy cells. -/
noncomputable def ir_BT_fp_field (fk1 fk2 bc1 bc2 : ℝ) (rad : List FP) :
    List FP :=
  rad.map (ir_BT_fp fk1 fk2 bc1 bc2)

/-- C2 counterexample: on a field holding the single out-of-domain radiance
0, the notebook's conversion yields the finite value `bc1` (here 1/2), not
an undefined marker: `fk1/0` is +inf, `log` is +inf, `T = fk2/inf` is 0 and
`BT = bc2*0 + bc1 = bc1`. -/
theorem ir_BT_zero_radiance_counterexample :
    ir_BT_fp_field 2 3700 (1/2) (99/100) [FP.fin 0] = [FP.fin (1/2)] := by
  simp only [ir_BT_fp_field, List.map_cons, List.map_nil, ir_BT_fp]
  rw [npDiv_fin_fin, if_pos rfl, if_pos (by norm_num : (0:ℝ) < 2),
    npAdd_pinf_fin, npLog_pinf, npDiv_fin_pinf, npMul_fin_fin,
    npAdd_fin_fin]
  norm_num

/-- C2 amended: elementwise behavior of the conversion on finite radiance
cells, for `fk1 > 0`.  A cell with `-fk1 < L < 0` (so `fk1/L + 1 < 0`)
becomes NaN; a cell with radiance exactly 0 yields the finite value `bc1`
rather than an undefined marker; a positive-radiance cell yields the
finite conversion value. -/
theorem ir_BT_fp_masking (fk1 fk2 bc1 bc2 L : ℝ) (hfk1 : 0 < fk1) :
    (-fk1 < L → L < 0 → ir_BT_fp fk1 fk2 bc1 bc2 (FP.fin L) = FP.nan) ∧
    (L = 0 → ir_BT_fp fk1 fk2 bc1 bc2 (FP.fin L) = FP.fin bc1) ∧
    (0 < L → ir_BT_fp fk1 fk2 bc1 bc2 (FP.fin L) =
      FP.fin (bc2 * (fk2 / Real.log (fk1 / L + 1)) + bc1)) := by
  refine ⟨?_, ?_, ?_⟩
  · intro hgt hlt
    have hLne : L ≠ 0 := ne_of_lt hlt
    have hneg : fk1 / L + 1 < 0 := by
      have h1 : fk1 / L < -1 := by
        rw [div_lt_iff_of_neg hlt]
        linarith
      linarith
    unfold ir_BT_fp
    rw [npDiv_fin_fin, if_neg hLne, npAdd_fin_fin, npLog_fin,
      if_neg (by linarith), if_neg (by linarith), npDiv_fin_nan,
      npMul_fin_nan, npAdd_nan_fin]
  · intro h0
    subst h0
    unfold ir_BT_fp
    rw [npDiv_fin_fin, if_pos rfl, if_pos hfk1, npAdd_pinf_fin, npLog_pinf,
      npDiv_fin_pinf, npMul_fin_fin, npAdd_fin_fin]
    norm_num
  · intro hpos
    have hLne : L ≠ 0 := ne_of_gt hpos
    have hx : (1 : ℝ) < fk1 / L + 1 := by
      have : 0 < fk1 / L := div_pos hfk1 hpos
      linarith
    have hlogpos : 0 < Real.log (fk1 / L + 1) := Real.log_pos hx
    unfold ir_BT_fp
    rw [npDiv_fin_fin, if_neg hLne, npAdd_fin_fin, npLog_fin,
      if_pos (by linarith), npDiv_fin_fin, if_neg (ne_of_gt hlogpos),
      npMul_fin_fin, npAdd_fin_fin]

/-- Witness for the amended masking theorem: with `fk1 = 2`, a cell at
radiance -1 becomes NaN while a cell at radiance 5 stays finite. -/
theorem ir_BT_fp_masking_witness :
    ir_BT_fp 2 3700 (1/2) (99/100) (FP.fin (-1)) = FP.nan ∧
    ir_BT_fp 2 3700 (1/2) (99/100) (FP.fin 5) =
      FP.fin ((99/100) * (3700 / Real.log (2 / 5 + 1)) + 1/2) :=
  ⟨(ir_BT_fp_masking 2 3700 (1/2) (99/100) (-1) (by norm_num)).1
      (by norm_num) (by norm_num),
   (ir_BT_fp_masking 2 3700 (1/2) (99/100) 5 (by norm_num)).2.2
      (by norm_num)⟩

/-! ## Reflectance and emitted energy -/

/-- Visible-channel conversion on a cell:
`vis = np.sqrt(ds.Rad * ds.kappa0)`. -/
noncomputable def vis_fp (kappa0 : ℝ) (L : FP) : FP :=
  npSqrt (npMul L (FP.fin kappa0))

/-- Elementwise visible conversion over a field of numpy cells. -/
noncomputable def vis_field (kappa0 : ℝ) (rad : List FP) : List FP :=
  rad.map (vis_fp kappa0)

/-- C8: the reflectance conversion computes `sqrt(radiance * kappa0)`
elementwise over the field; a cell with `radiance * kappa0 < 0` becomes the
undefined marker (NaN) while every other cell receives the valid square
root. -/
theorem vis_field_spec (kappa0 : ℝ) (rad : List ℝ) :
    (vis_field kappa0 (rad.map FP.fin)).length = rad.length ∧
    vis_field kappa0 (rad.map FP.fin) =
      rad.map (fun L => vis_fp kappa0 (FP.fin L)) ∧
    ∀ L : ℝ,
      (L * kappa0 < 0 → vis_fp kappa0 (FP.fin L) = FP.nan) ∧
      (0 ≤ L * kappa0 →
        vis_fp kappa0 (FP.fin L) = FP.fin (Real.sqrt (L * kappa0))) := by
  refine ⟨?_, ?_, ?_⟩
  · simp [vis_field]
  · simp [vis_field, List.map_map, Function.comp]
  · intro L
    constructor
    · intro hneg
      unfold vis_fp
      rw [npMul_fin_fin, npSqrt_fin, if_neg (not_le.mpr hneg)]
    · intro hpos
      unfold vis_fp
      rw [npMul_fin_fin, npSqrt_fin, if_pos hpos]

/-- Witness for the reflectance theorem: with `kappa0 = 1` a cell at
radiance -1 is masked as NaN and a cell at radiance 4 gets its square
root. -/
theorem vis_field_spec_witness :
    vis_fp 1 (FP.fin (-1)) = FP.nan ∧
    vis_fp 1 (FP.fin 4) = FP.fin (Real.sqrt (4 * 1)) :=
  ⟨((vis_field_spec 1 []).2.2 (-1)).1 (by norm_num),
   ((vis_field_spec 1 []).2.2 4).2 (by norm_num)⟩

/-- Stefan-Boltzmann constant as set in the notebook:
`sb_constant = 5.67e-8`. -/
noncomputable def sb_constant : ℝ := 5.67e-8

/-- Emitted energy on a cell: `E = sb_constant*wv_BT**4`. -/
noncomputable def emittedFlux_fp (t : FP) : FP :=
  npMul (FP.fin sb_constant) (npPow4 t)

/-- Elementwise emitted energy over a brightness-temperature field. -/
noncomputable def emittedFlux_field (bt : List FP) : List FP :=
  bt.map emittedFlux_fp

/-- C9: the emitted-flux computation is the elementwise map
`T ↦ sigma * T^4` with `sigma = 5.67e-8`; it preserves the field's shape,
sends every finite cell to the finite value `sigma * T^4`, and its only
other behavior is to propagate cells that are already undefined. -/
theorem emittedFlux_field_spec (bt : List FP) :
    (emittedFlux_field bt).length = bt.length ∧
    emittedFlux_field bt = bt.map emittedFlux_fp ∧
    (∀ t : ℝ, emittedFlux_fp (FP.fin t) = FP.fin (sb_constant * t ^ 4)) ∧
    emittedFlux_fp FP.nan = FP.nan ∧
    sb_constant = 567 / 10 ^ 10 := by
  refine ⟨by simp [emittedFlux_field], rfl, ?_, rfl, by norm_num [sb_constant]⟩
  intro t
  unfold emittedFlux_fp
  rw [show npPow4 (FP.fin t) = FP.fin (t ^ 4) from rfl, npMul_fin_fin]

/-! ## Gaussian smoothing

The notebook smooths the subset GFS fields with
`gaussian_filter(data[0,:,lat_slice,lon_slice], sigma=1.0)` from
scipy.ndimage.  With a scalar sigma, scipy applies a truncated, normalized
1-D Gaussian kernel sequentially along every axis of the 3-D
(level, lat, lon) array, using its default boundary mode, reflect, and
default truncation 4.0, giving kernel radius `int(4.0*1.0 + 0.5) = 4`. -/

/-- Gaussian kernel weight for sigma = 1: `exp(-0.5 * k^2)`. -/
noncomputable def gweight (k : ℤ) : ℝ := Real.exp (-(k : ℝ) ^ 2 / 2)

/-- Normalizing sum of the truncated kernel of radius 4. -/
noncomputable def gnorm : ℝ := ∑ k in Finset.Icc (-4 : ℤ) 4, gweight k

/-- Index extension for the scipy boundary mode reflect,
pattern `(d c b a | a b c d | d c b a)`, on an axis of length `n`. -/
def reflectIdx (n : ℕ) (i : ℤ) : ℕ :=
  let m := i % (2 * (n : ℤ))
  if m < (n : ℤ) then m.toNat else 2 * n - 1 - m.toNat

open Classical in
/-- One pass of the normalized radius-4 Gaussian along an axis of length
`n` with reflect boundary handling. -/
noncomputable def gaussFilter1d (n : ℕ) (x : ℕ → ℝ) (i : ℕ) : ℝ :=
  (∑ k in Finset.Icc (-4 : ℤ) 4,
    gweight k * x (reflectIdx n ((i : ℤ) + k))) / gnorm

/-- Scipy `gaussian_filter` with scalar `sigma=1.0` on a 3-D
(level, lat, lon) array: sequential 1-D passes along axis 0 (level), then
axis 1 (lat), then axis 2 (lon). -/
noncomputable def gaussian_filter (nl nr nc : ℕ) (f : ℕ → ℕ → ℕ → ℝ) :
    ℕ → ℕ → ℕ → ℝ :=
  fun l i j =>
    gaussFilter1d nc
      (fun j2 => gaussFilter1d nr
        (fun i2 => gaussFilter1d nl (fun l2 => f l2 i2 j2) l) i) j

/-- The vertical (axis 0) pass of the filter alone. -/
noncomputable def gaussAxis0 (nl : ℕ) (f : ℕ → ℕ → ℕ → ℝ) :
    ℕ → ℕ → ℕ → ℝ :=
  fun l i j => gaussFilter1d nl (fun l2 => f l2 i j) l

/-- Modelled from the spec: purely horizontal smoothing of one level's
2-D slice, the per-level smoothing the spec's `smooth` contract
describes. -/
noncomputable def smoothPerLevel (nr nc : ℕ) (g : ℕ → ℕ → ℝ) :
    ℕ → ℕ → ℝ :=
  fun i j => gaussFilter1d nc (fun j2 => gaussFilter1d nr
    (fun i2 => g i2 j2) i) j

/-- Positivity of the kernel normalization. -/
theorem gnorm_pos : 0 < gnorm := by
  unfold gnorm
  refine Finset.sum_pos (fun k _ => Real.exp_pos _) ⟨0, by decide⟩

/-- A 1-D Gaussian pass leaves a constant signal unchanged. -/
@[simp] theorem gaussFilter1d_const (n : ℕ) (c : ℝ) (i : ℕ) :
    gaussFilter1d n (fun _ => c) i = c := by
  unfold gaussFilter1d
  rw [← Finset.sum_mul]
  rw [show (∑ k in Finset.Icc (-4 : ℤ) 4, gweight k) = gnorm from rfl]
  rw [mul_div_cancel_left₀ _ (ne_of_gt gnorm_pos)]

/-- C6 counterexample: two 2x1x1 fields that agree on the whole level-0
slice (both hold 0 there) get different smoothed values at level 0,
because the filter mixes in level 1; so a level's smoothed slice does not
depend only on that level's values. -/
theorem gaussian_filter_mixes_levels_counterexample :
    (fun (l _ _ : ℕ) => if l = 0 then (0:ℝ) else 1) 0 0 0 =
      (fun (_ _ _ : ℕ) => (0:ℝ)) 0 0 0 ∧
    gaussian_filter 2 1 1 (fun l _ _ => if l = 0 then (0:ℝ) else 1) 0 0 0 ≠
      gaussian_filter 2 1 1 (fun _ _ _ => (0:ℝ)) 0 0 0 := by
  constructor
  · norm_num
  · have hzero : gaussian_filter 2 1 1 (fun _ _ _ => (0:ℝ)) 0 0 0 = 0 := by
      simp [gaussian_filter]
    have hred :
        gaussian_filter 2 1 1
            (fun l _ _ => if l = 0 then (0:ℝ) else 1) 0 0 0 =
          gaussFilter1d 2 (fun l2 => if l2 = 0 then (0:ℝ) else 1) 0 := by
      simp [gaussian_filter]
    have hpos :
        0 < gaussFilter1d 2 (fun l2 => if l2 = 0 then (0:ℝ) else 1) 0 := by
      unfold gaussFilter1d
      refine div_pos ?_ gnorm_pos
      refine Finset.sum_pos' ?_ ⟨1, by decide, ?_⟩
      · intro k _
        have hx : ∀ m : ℕ, 0 ≤ (fun l2 => if l2 = 0 then (0:ℝ) else 1) m := by
          intro m
          by_cases hm : m = 0 <;> simp [hm]
        exact mul_nonneg (le_of_lt (Real.exp_pos _)) (hx _)
      · rw [show reflectIdx 2 (((0:ℕ) : ℤ) + 1) = 1 from by decide]
        simp only [one_ne_zero, if_false]
        rw [mul_one]
        exact Real.exp_pos _
    rw [hzero, hred]
    exact ne_of_gt hpos

/-- C6 amended: the notebook's smoothing is a Gaussian pass along every
axis of the 3-D array, vertical included; it equals horizontal per-level
smoothing of the vertically pre-smoothed volume, uses one fixed boundary
policy (reflect) in every pass, and leaves constants unchanged. -/
theorem gaussian_filter_three_axis (nl nr nc : ℕ) (f : ℕ → ℕ → ℕ → ℝ) :
    (∀ l i j, gaussian_filter nl nr nc f l i j =
      smoothPerLevel nr nc (fun i2 j2 => gaussAxis0 nl f l i2 j2) i j) ∧
    (∀ (c : ℝ) (l i j : ℕ),
      gaussian_filter nl nr nc (fun _ _ _ => c) l i j = c) := by
  constructor
  · intro l i j
    rfl
  · intro c l i j
    simp [gaussian_filter]

/-! ## Isentropic interpolation

The notebook delegates this step to `mpcalc.isentropic_interpolation`,
whose code is not part of this repository, so the component is modelled
from the spec (section 4.4): per-column theta profiles from
`computePotentialTemperature`, bracketing-pair search scanning from the
surface upward, log-pressure interpolation for pressure and linear
interpolation in theta for winds, exact-level ties taken directly, and an
undefined marker (`none`) when the target theta falls outside the
column's profile range. -/

/-- Modelled from the spec: `computePotentialTemperature` on one cell,
`theta = T * (p0/p)^(R/cp)` with `p0 = 100000 Pa` and `R/cp = 0.2854`. -/
noncomputable def computeTheta (p T : ℝ) : ℝ :=
  T * (100000 / p) ^ (0.2854 : ℝ)

/-- Modelled from the spec: the vertical potential-temperature profile of
one column, broadcasting the 1-D pressure axis against the column. -/
noncomputable def thetaProfile (pres col : List ℝ) : List ℝ :=
  List.zipWith computeTheta pres col

/-- Modelled from the spec: interpolation between the two bracketing
levels, linear in log-pressure for pressure and linear in theta for the
wind components.  A level is the tuple (theta, pressure, u, v). -/
noncomputable def interpBetween (t : ℝ) (l1 l2 : ℝ × ℝ × ℝ × ℝ) :
    ℝ × ℝ × ℝ :=
  let frac := (t - l1.1) / (l2.1 - l1.1)
  (Real.exp (Real.log l1.2.1 + frac * (Real.log l2.2.1 - Real.log l1.2.1)),
   l1.2.2.1 + frac * (l2.2.2.1 - l1.2.2.1),
   l1.2.2.2 + frac * (l2.2.2.2 - l1.2.2.2))

open Classical in
/-- Modelled from the spec: one column of the interpolation, scanning the
level list from the surface upward; an exact theta match returns that
level's values, the first straddling pair is interpolated, and a target
outside the profile's range yields the undefined marker `none`. -/
noncomputable def interpColumn (t : ℝ) :
    List (ℝ × ℝ × ℝ × ℝ) → Option (ℝ × ℝ × ℝ)
  | [] => none
  | [l1] => if l1.1 = t then some (l1.2.1, l1.2.2.1, l1.2.2.2) else none
  | l1 :: l2 :: rest =>
      if l1.1 = t then some (l1.2.1, l1.2.2.1, l1.2.2.2)
      else if (l1.1 < t ∧ t < l2.1) ∨ (l2.1 < t ∧ t < l1.1) then
        some (interpBetween t l1 l2)
      else interpColumn t (l2 :: rest)

/-- Modelled from the spec: the surface for one target theta, as a
per-column map over the horizontal grid. -/
noncomputable def surfaceFor (pres : List ℝ) (temp u v : ℕ → ℕ → List ℝ)
    (t : ℝ) : ℕ → ℕ → Option (ℝ × ℝ × ℝ) :=
  fun i j =>
    interpColumn t
      (List.zip (thetaProfile pres (temp i j))
        (List.zip pres (List.zip (u i j) (v i j))))

/-- Modelled from the spec: `interpolateToIsentropicSurfaces`, one derived
surface per requested target theta. -/
noncomputable def isentropic_interpolation (targets pres : List ℝ)
    (temp u v : ℕ → ℕ → List ℝ) : List (ℕ → ℕ → Option (ℝ × ℝ × ℝ)) :=
  targets.map (surfaceFor pres temp u v)

/-- Scanning a column whose thetas all lie strictly below the target
finds no exact match and no straddling pair. -/
theorem interpColumn_none_of_forall_lt (t : ℝ) :
    ∀ col : List (ℝ × ℝ × ℝ × ℝ), (∀ x ∈ col, x.1 < t) →
      interpColumn t col = none := by
  intro col
  induction col with
  | nil => intro _; rfl
  | cons l1 rest ih =>
    intro h
    have h1 : l1.1 < t := h l1 (List.mem_cons_self _ _)
    cases rest with
    | nil =>
      simp only [interpColumn]
      rw [if_neg (ne_of_lt h1)]
    | cons l2 rest2 =>
      have h2 : l2.1 < t := h l2 (List.mem_cons_of_mem _ (List.mem_cons_self _ _))
      have hnot : ¬((l1.1 < t ∧ t < l2.1) ∨ (l2.1 < t ∧ t < l1.1)) := by
        rintro (⟨_, hlt⟩ | ⟨_, hlt⟩) <;> linarith
      simp only [interpColumn]
      rw [if_neg (ne_of_lt h1), if_neg hnot]
      exact ih fun x hx => h x (List.mem_cons_of_mem _ hx)

/-- Scanning a column whose thetas all lie strictly above the target
finds no exact match and no straddling pair. -/
theorem interpColumn_none_of_forall_gt (t : ℝ) :
    ∀ col : List (ℝ × ℝ × ℝ × ℝ), (∀ x ∈ col, t < x.1) →
      interpColumn t col = none := by
  intro col
  induction col with
  | nil => intro _; rfl
  | cons l1 rest ih =>
    intro h
    have h1 : t < l1.1 := h l1 (List.mem_cons_self _ _)
    cases rest with
    | nil =>
      simp only [interpColumn]
      rw [if_neg (ne_of_gt h1)]
    | cons l2 rest2 =>
      have h2 : t < l2.1 := h l2 (List.mem_cons_of_mem _ (List.mem_cons_self _ _))
      have hnot : ¬((l1.1 < t ∧ t < l2.1) ∨ (l2.1 < t ∧ t < l1.1)) := by
        rintro (⟨hlt, _⟩ | ⟨hlt, _⟩) <;> linarith
      simp only [interpColumn]
      rw [if_neg (ne_of_gt h1), if_neg hnot]
      exact ih fun x hx => h x (List.mem_cons_of_mem _ hx)

/-- C3: the interpolation yields exactly one surface per requested theta
level, and a column whose theta profile lies entirely below or entirely
above a target theta gets the undefined marker for that target, a value
distinguishable from any valid tuple such as zero. -/
theorem isentropic_interpolation_count_and_mask (targets pres : List ℝ)
    (temp u v : ℕ → ℕ → List ℝ) :
    (isentropic_interpolation targets pres temp u v).length =
      targets.length ∧
    isentropic_interpolation targets pres temp u v =
      targets.map (surfaceFor pres temp u v) ∧
    ∀ (t : ℝ) (i j : ℕ),
      ((∀ th ∈ thetaProfile pres (temp i j), th < t) ∨
       (∀ th ∈ thetaProfile pres (temp i j), t < th)) →
      surfaceFor pres temp u v t i j = none := by
  refine ⟨by simp [isentropic_interpolation], rfl, ?_⟩
  intro t i j h
  unfold surfaceFor
  rcases h with hlt | hgt
  · exact interpColumn_none_of_forall_lt t _
      fun x hx => hlt x.1 (List.of_mem_zip hx).1
  · exact interpColumn_none_of_forall_gt t _
      fun x hx => hgt x.1 (List.of_mem_zip hx).1

/-- Witness for the isentropic theorem: on a two-level column whose theta
profile is [250 K, 260 K], the target 300 K lies above the range and the
surface is undefined there, while one surface is produced for the one
requested level. -/
theorem isentropic_interpolation_mask_witness :
    surfaceFor [100000, 100000] (fun _ _ => [250, 260]) (fun _ _ => [0, 0])
      (fun _ _ => [0, 0]) 300 0 0 = none ∧
    (isentropic_interpolation [300] [100000, 100000]
      (fun _ _ => [250, 260]) (fun _ _ => [0, 0])
      (fun _ _ => [0, 0])).length = 1 := by
  have hone : (100000 : ℝ) / 100000 = 1 := by norm_num
  have h250 : computeTheta 100000 250 = 250 := by
    unfold computeTheta; rw [hone, Real.one_rpow, mul_one]
  have h260 : computeTheta 100000 260 = 260 := by
    unfold computeTheta; rw [hone, Real.one_rpow, mul_one]
  constructor
  · refine (isentropic_interpolation_count_and_mask [300] [100000, 100000]
      (fun _ _ => [250, 260]) (fun _ _ => [0, 0])
      (fun _ _ => [0, 0])).2.2 300 0 0 (Or.inl ?_)
    intro th hth
    simp only [thetaProfile, List.zipWith_cons_cons, List.zipWith_nil,
      List.mem_cons, List.not_mem_nil, or_false] at hth
    rcases hth with rfl | rfl
    · rw [h250]; norm_num
    · rw [h260]; norm_num
  · simpa using (isentropic_interpolation_count_and_mask [300]
      [100000, 100000] (fun _ _ => [250, 260]) (fun _ _ => [0, 0])
      (fun _ _ => [0, 0])).1

end Goes16
